import Mathlib

/-!
Shallow embedding of the PyGravitas physics core (src/particles.py,
src/constants.py, src/main.py) over exact real arithmetic, together with
theorems settling the specification claims about force accumulation,
boundary topology, integration state handling and energy accounting.
-/

namespace PyGravitas

/-! Constants from src/constants.py. -/

def SCREEN_WIDTH : ℝ := 1280
def SCREEN_HEIGHT : ℝ := 720
def MASS_LOWER_BOUND : ℝ := 1
def MASS_UPPER_BOUND : ℝ := 10
def G_SCALED : ℝ := 1000000
noncomputable def EPS : ℝ := 1/10000

/-- Modelled from the spec: particles.py imports `EPS_SQUARED` from constants,
but src/constants.py only defines `EPS = 0.0001` ("small value to avoid
division by zero"); the softening constant actually bound to that name is
missing from src/. The spec fixes it only as "a fixed small constant added to
squared distance", so we model it as the square of the EPS that is present.
Every theorem below that mentions it holds for any positive value. -/
noncomputable def EPS_SQUARED : ℝ := EPS ^ 2

/-- Numpy round (round-half-to-even), as used by `np.round` in the
minimum-image correction of `calculate_forces`, `_calculate_forces_full_matrix`
and `calculate_potential_energy`. -/
noncomputable def npRound (x : ℝ) : ℤ :=
  if Int.fract x < 1/2 then ⌊x⌋
  else if 1/2 < Int.fract x then ⌊x⌋ + 1
  else if 2 ∣ ⌊x⌋ then ⌊x⌋ else ⌊x⌋ + 1

/-- Numpy mod with a real divisor (`np.mod(x, w) = x - w * floor(x / w)`), as
used by `enforce_periodic_boundary_conditions`. -/
noncomputable def npMod (x w : ℝ) : ℝ := x - w * ⌊x / w⌋

/-- Minimum-image correction of a displacement vector:
`displacement -= screen_dims * np.round(displacement / screen_dims)`,
applied componentwise with `screen_dims = (SCREEN_WIDTH, SCREEN_HEIGHT)`. -/
noncomputable def minImage (d : ℝ × ℝ) : ℝ × ℝ :=
  (d.1 - SCREEN_WIDTH * (npRound (d.1 / SCREEN_WIDTH) : ℝ),
   d.2 - SCREEN_HEIGHT * (npRound (d.2 / SCREEN_HEIGHT) : ℝ))

/-! State container: the `Particles` class of src/particles.py.  Numpy arrays
of shape (N,) are lists of reals, arrays of shape (N,2) lists of pairs. -/

structure Particles where
  num_particles : ℕ
  radius : ℝ
  masses : List ℝ
  pos : List (ℝ × ℝ)
  vel : List (ℝ × ℝ)
  forces : List (ℝ × ℝ)
  accelerations : List (ℝ × ℝ)
  kinetic_energy : ℝ
  potential_energy : ℝ
  total_energy : ℝ

/-- Position coordinate count `self.num_pos_coords = NUM_DIM * self.num_particles`
(set once in `__init__` and never mutated, so embedded as a derived value). -/
def num_pos_coords (s : Particles) : ℕ := 2 * s.num_particles

/-- Flattening of an (N,2) array by `.flatten()`: row-major order. -/
def flatten2 : List (ℝ × ℝ) → List ℝ
  | [] => []
  | p :: rest => p.1 :: p.2 :: flatten2 rest

/-- Reshaping of a flat coordinate list by `.reshape(num_particles, NUM_DIM)`:
consecutive coordinates pair up per particle. -/
def unflatten2 : List ℝ → List (ℝ × ℝ)
  | x :: y :: rest => (x, y) :: unflatten2 rest
  | _ => []

/-- Constructor `Particles.__init__(num_particles, radius)`.  The uniform
draws of `np.random.rand` are external inputs, passed here explicitly:
`massDraws`, `posDraws`, `velDraws` are the raw samples in [0,1).  The source
performs no validation of `num_particles` or `radius`; it unconditionally
builds the object. -/
def init (num_particles : ℕ) (radius : ℝ) (massDraws : List ℝ)
    (posDraws velDraws : List (ℝ × ℝ)) : Particles :=
  { num_particles := num_particles
    radius := radius
    masses := massDraws.map
      (fun r => MASS_LOWER_BOUND + r * (MASS_UPPER_BOUND - MASS_LOWER_BOUND))
    pos := posDraws.map
      (fun r => (radius + r.1 * ((SCREEN_WIDTH - radius) - radius),
                 radius + r.2 * ((SCREEN_HEIGHT - radius) - radius)))
    vel := velDraws.map
      (fun r => (-150 + r.1 * (150 - (-150)), -150 + r.2 * (150 - (-150))))
    forces := List.replicate num_particles (0, 0)
    accelerations := []
    kinetic_energy := 0
    potential_energy := 0
    total_energy := 0 }

/-- Boundary wrap `enforce_periodic_boundary_conditions`:
`self.pos = np.mod(self.pos, self.screen_dims)`. -/
noncomputable def enforce_periodic_boundary_conditions (s : Particles) : Particles :=
  { s with
      pos := s.pos.map (fun p => (npMod p.1 SCREEN_WIDTH, npMod p.2 SCREEN_HEIGHT)) }

/-! Force engine: `calculate_forces`.  The source enumerates the unique pairs
(i, j) with i < j via `np.triu_indices`, computes one pair force vector, and
scatter-adds it onto slot i with sign +1 and slot j with sign -1. -/

/-- Indexing helper for (N,) arrays: `masses[i]`. -/
def massAt (s : Particles) (i : ℕ) : ℝ := s.masses.getD i 0

/-- Indexing helper for (N,2) arrays: `pos[i]`. -/
def posAt (s : Particles) (i : ℕ) : ℝ × ℝ := s.pos.getD i (0, 0)

/-- Indexing helper for (N,2) arrays: `vel[i]`. -/
def velAt (s : Particles) (i : ℕ) : ℝ × ℝ := s.vel.getD i (0, 0)

/-- Displacement of a unique pair in `calculate_forces`:
`pairwise_disp = pos[j] - pos[i]`, then the minimum-image correction. -/
noncomputable def pairDisp (s : Particles) (i j : ℕ) : ℝ × ℝ :=
  minImage ((posAt s j).1 - (posAt s i).1, (posAt s j).2 - (posAt s i).2)

/-- Softened squared separation of a unique pair:
`r_squared = sum(square(pairwise_disp)) + EPS_SQUARED`. -/
noncomputable def pairR2 (s : Particles) (i j : ℕ) : ℝ :=
  (pairDisp s i j).1 ^ 2 + (pairDisp s i j).2 ^ 2 + EPS_SQUARED

/-- Force magnitude of a unique pair:
`force_magnitudes = G_SCALED * masses[i] * masses[j] / r_squared`. -/
noncomputable def force_magnitude (s : Particles) (i j : ℕ) : ℝ :=
  G_SCALED * massAt s i * massAt s j / pairR2 s i j

/-- Force vector exerted by particle j on particle i:
`pair_forces = force_magnitudes * (pairwise_disp / sqrt(r_squared))`. -/
noncomputable def pair_force (s : Particles) (i j : ℕ) : ℝ × ℝ :=
  (force_magnitude s i j * ((pairDisp s i j).1 / Real.sqrt (pairR2 s i j)),
   force_magnitude s i j * ((pairDisp s i j).2 / Real.sqrt (pairR2 s i j)))

/-- Contribution of the unique pair (i, j) to `forces[k]` under the two-slot
scatter-add `np.add.at(forces, i, pair_forces); np.add.at(forces, j, -pair_forces)`. -/
noncomputable def pairContrib (s : Particles) (k i j : ℕ) : ℝ × ℝ :=
  (if k = i then pair_force s i j else 0) + (if k = j then -pair_force s i j else 0)

/-- Sum of a pair quantity over the unique pairs (i, j), i < j, of
`np.triu_indices(num_particles, k=1)`. -/
def pairSum {α : Type} [AddCommMonoid α] (n : ℕ) (f : ℕ → ℕ → α) : α :=
  ∑ i ∈ Finset.range n, ∑ j ∈ Finset.range n, if i < j then f i j else 0

/-- Force accumulation `calculate_forces`: resets `self.forces` to zeros, then
scatter-adds every unique pair force onto the two slots it involves. -/
noncomputable def calculate_forces (s : Particles) : Particles :=
  { s with
      forces := List.ofFn (n := s.num_particles)
        (fun k => pairSum s.num_particles (fun i j => pairContrib s k i j)) }

/-- Acceleration update `calculate_accelerations`:
`self.accelerations = self.forces / self.masses[:, np.newaxis]`. -/
noncomputable def calculate_accelerations (s : Particles) : Particles :=
  { s with
      accelerations := List.zipWith
        (fun (f : ℝ × ℝ) (m : ℝ) => (f.1 / m, f.2 / m)) s.forces s.masses }

/-! Integrator interface: `step_forward` and `derivative`. -/

/-- Derivative function passed to `solve_ivp`.  Faithful to the source, it
unpacks the flat trial state, then MUTATES the particle system: it assigns
`self.pos = current_pos` and recomputes forces and accelerations on `self`
before returning the flat derivative vector.  The returned pair is
(mutated system, returned derivative). -/
noncomputable def derivative (s : Particles) (y_flat : List ℝ) :
    Particles × List ℝ :=
  let current_pos := unflatten2 (y_flat.take (num_pos_coords s))
  let current_vel := unflatten2 (y_flat.drop (num_pos_coords s))
  let s2 := calculate_accelerations (calculate_forces { s with pos := current_pos })
  (s2, flatten2 current_vel ++ flatten2 s2.accelerations)

/-- Result of the external `scipy.integrate.solve_ivp` call, as observed by
`step_forward`: the solution column `sol.y[:, 0]` at `t = dt`, plus the
solver's own success flag (`sol.success`, false when the adaptive RK45 scheme
cannot meet its tolerances within its internal step-size floor or produced
non-finite values).  The solver is a third-party dependency, so it enters the
embedding as an input; what is embedded is what `step_forward` does with it. -/
structure SolveIvpResult where
  y_end : List ℝ
  success : Bool

/-- Step `step_forward(dt)`: packs `init_state` (unused beyond feeding the
solver), calls `solve_ivp`, then unconditionally slices and reshapes
`sol.y[:, 0]` into the committed `self.pos` and `self.vel`.  The source never
inspects `sol.success` or `sol.status` and performs no finiteness check; the
assignment happens for every solver outcome. -/
noncomputable def step_forward (s : Particles) (sol : SolveIvpResult) : Particles :=
  { s with
      pos := unflatten2 (sol.y_end.take (num_pos_coords s)),
      vel := unflatten2 (sol.y_end.drop (num_pos_coords s)) }

/-! Energy accounting. -/

/-- Kinetic energy update `calculate_kinetic_energy`:
`0.5 * np.sum(self.masses * np.sum(np.square(self.vel), axis=1))`. -/
noncomputable def calculate_kinetic_energy (s : Particles) : Particles :=
  { s with
      kinetic_energy :=
        0.5 * (List.zipWith (fun (m : ℝ) (v : ℝ × ℝ) => m * (v.1 ^ 2 + v.2 ^ 2))
          s.masses s.vel).sum }

/-- Pair distance used by `calculate_potential_energy`: note the source takes
`pairwise_disp = pos[i] - pos[j]` here (the opposite orientation from
`calculate_forces`), applies the same minimum-image correction, and takes
`r = sqrt(sum(square(disp)) + EPS_SQUARED)`. -/
noncomputable def peDist (s : Particles) (i j : ℕ) : ℝ :=
  Real.sqrt
    ((minImage ((posAt s i).1 - (posAt s j).1, (posAt s i).2 - (posAt s j).2)).1 ^ 2 +
     (minImage ((posAt s i).1 - (posAt s j).1, (posAt s i).2 - (posAt s j).2)).2 ^ 2 +
     EPS_SQUARED)

/-- Potential energy update `calculate_potential_energy`:
`U = sum over unique pairs of -G_SCALED * masses[i] * masses[j] / r`. -/
noncomputable def calculate_potential_energy (s : Particles) : Particles :=
  { s with
      potential_energy :=
        pairSum s.num_particles
          (fun i j => -G_SCALED * (massAt s i * massAt s j) / peDist s i j) }

/-- Total energy update `calculate_total_energy`: recomputes kinetic then
potential energy, then sums them. -/
noncomputable def calculate_total_energy (s : Particles) : Particles :=
  let s1 := calculate_kinetic_energy s
  let s2 := calculate_potential_energy s1
  { s2 with total_energy := s2.potential_energy + s2.kinetic_energy }

/-! Helper lemmas. -/

theorem npRound_zero : npRound 0 = 0 := by
  simp [npRound]

theorem floor_neg_of_fract_ne_zero {x : ℝ} (h0 : Int.fract x ≠ 0) :
    ⌊-x⌋ = -⌊x⌋ - 1 := by
  have hlt : (⌊x⌋ : ℝ) < x := by
    rcases lt_or_eq_of_le (Int.floor_le x) with h | h
    · exact h
    · exfalso
      apply h0
      rw [← Int.self_sub_floor, ← h, Int.floor_intCast, sub_self]
  have hub : x < ⌊x⌋ + 1 := Int.lt_floor_add_one x
  rw [Int.floor_eq_iff]
  push_cast
  constructor <;> linarith

/-- Round-half-to-even is an odd function; this makes the minimum-image
correction orientation-independent up to sign. -/
theorem npRound_neg (x : ℝ) : npRound (-x) = -npRound x := by
  by_cases h0 : Int.fract x = 0
  · have hfn : Int.fract (-x) = 0 := Int.fract_neg_eq_zero.mpr h0
    have hx : (⌊x⌋ : ℝ) = x := by
      have h := Int.floor_add_fract x
      rw [h0, add_zero] at h
      exact h
    have hfl : ⌊-x⌋ = -⌊x⌋ := by
      conv_lhs => rw [← hx]
      rw [← Int.cast_neg, Int.floor_intCast]
    have h2 : (0 : ℝ) < 1/2 := by norm_num
    simp [npRound, h0, hfn, hfl, h2, Int.floor_intCast]
  · have hfn : Int.fract (-x) = 1 - Int.fract x := Int.fract_neg h0
    have hfl : ⌊-x⌋ = -⌊x⌋ - 1 := floor_neg_of_fract_ne_zero h0
    rcases lt_trichotomy (Int.fract x) (1/2) with hc | hc | hc
    · have hn1 : ¬ Int.fract (-x) < 1/2 := by rw [hfn]; push_neg; linarith
      have hn2 : 1/2 < Int.fract (-x) := by rw [hfn]; linarith
      rw [npRound, npRound, if_pos hc, if_neg hn1, if_pos hn2, hfl]
      ring
    · have hfn2 : Int.fract (-x) = 1/2 := by rw [hfn, hc]; norm_num
      have hnlt : ¬ Int.fract (-x) < 1/2 := by rw [hfn2]; exact lt_irrefl _
      have hngt : ¬ (1/2 : ℝ) < Int.fract (-x) := by rw [hfn2]; exact lt_irrefl _
      have hxnlt : ¬ Int.fract x < 1/2 := by rw [hc]; exact lt_irrefl _
      have hxngt : ¬ (1/2 : ℝ) < Int.fract x := by rw [hc]; exact lt_irrefl _
      by_cases hp : 2 ∣ ⌊x⌋
      · have hp2 : ¬ 2 ∣ ⌊-x⌋ := by rw [hfl]; omega
        rw [npRound, npRound, if_neg hnlt, if_neg hngt, if_neg hp2,
          if_neg hxnlt, if_neg hxngt, if_pos hp, hfl]
        ring
      · have hp2 : 2 ∣ ⌊-x⌋ := by rw [hfl]; omega
        rw [npRound, npRound, if_neg hnlt, if_neg hngt, if_pos hp2,
          if_neg hxnlt, if_neg hxngt, if_neg hp, hfl]
        ring
    · have hn1 : Int.fract (-x) < 1/2 := by rw [hfn]; linarith
      have hxnlt : ¬ Int.fract x < 1/2 := by push_neg; linarith
      rw [npRound, npRound, if_pos hn1, if_neg hxnlt, if_pos hc, hfl]
      ring

theorem minImage_neg (d : ℝ × ℝ) : minImage (-d.1, -d.2) = - minImage d := by
  simp only [minImage, Prod.neg_mk]
  rw [show -d.1 / SCREEN_WIDTH = -(d.1 / SCREEN_WIDTH) by ring,
      show -d.2 / SCREEN_HEIGHT = -(d.2 / SCREEN_HEIGHT) by ring,
      npRound_neg, npRound_neg]
  push_cast
  rw [Prod.mk.injEq]
  constructor <;> ring

theorem minImage_zero : minImage (0, 0) = (0, 0) := by
  simp [minImage, npRound_zero]

/-- Numpy mod with a positive divisor lands in [0, w). -/
theorem npMod_mem_Ico {w : ℝ} (hw : 0 < w) (x : ℝ) :
    0 ≤ npMod x w ∧ npMod x w < w := by
  have h1 : npMod x w = w * Int.fract (x / w) := by
    rw [npMod, Int.fract]
    field_simp
  constructor
  · rw [h1]
    exact mul_nonneg hw.le (Int.fract_nonneg _)
  · rw [h1]
    calc w * Int.fract (x / w) < w * 1 := by
          exact (mul_lt_mul_left hw).mpr (Int.fract_lt_one _)
      _ = w := mul_one w

/-- Numpy mod fixes a value already in [0, w). -/
theorem npMod_eq_self {w x : ℝ} (hw : 0 < w) (h0 : 0 ≤ x) (h1 : x < w) :
    npMod x w = x := by
  have hfl : ⌊x / w⌋ = 0 := by
    rw [Int.floor_eq_iff]
    push_cast
    constructor
    · exact div_nonneg h0 hw.le
    · have h2 := (div_lt_one hw).mpr h1
      linarith
  rw [npMod, hfl]
  ring

/-- Row-major flattening of an (N,2) array has 2N entries. -/
theorem flatten2_length (l : List (ℝ × ℝ)) : (flatten2 l).length = 2 * l.length := by
  induction l with
  | nil => rfl
  | cons p rest ih => simp [flatten2, ih]; ring

/-- Reshaping inverts flattening exactly. -/
theorem unflatten2_flatten2 (l : List (ℝ × ℝ)) : unflatten2 (flatten2 l) = l := by
  induction l with
  | nil => rfl
  | cons p rest ih => simp [flatten2, unflatten2, ih]

/-- Concrete one-particle system used to evaluate the stepping and derivative
behaviour on explicit inputs. -/
noncomputable def testSys1 : Particles :=
  { num_particles := 1
    radius := 10
    masses := [2]
    pos := [(5, 5)]
    vel := [(1, 1)]
    forces := [(0, 0)]
    accelerations := [(0, 0)]
    kinetic_energy := 0
    potential_energy := 0
    total_energy := 0 }

/-! Claim theorems. -/

/-- C2: the claim says construction with count < 1 or radius ≤ 0 fails fast
with a ConfigurationError.  The source constructor performs no validation and
no such error class exists anywhere in the repository: called with
num_particles = 0 and radius = 10, and with radius = -5, it still returns a
fully built Particles value (its return type has no failure channel at all). -/
theorem C2_init_performs_no_validation :
    (init 0 10 [] [] []).num_particles = 0 ∧
    (init 3 (-5) [] [] []).radius = -5 := by
  exact ⟨rfl, rfl⟩

/-- C1: the claim says a failed adaptive RK45 solve surfaces as an
IntegrationFailure instead of being committed.  The source never inspects
`sol.success`/`sol.status` and performs no finiteness check: on a solver
result explicitly flagged unsuccessful it still commits the returned values
as the new position and velocity state. -/
theorem C1_step_forward_commits_failed_solver_output :
    (SolveIvpResult.mk [100, 200, 3, 4] false).success = false ∧
    (step_forward testSys1 (SolveIvpResult.mk [100, 200, 3, 4] false)).pos
      = [((100 : ℝ), (200 : ℝ))] ∧
    (step_forward testSys1 (SolveIvpResult.mk [100, 200, 3, 4] false)).vel
      = [((3 : ℝ), (4 : ℝ))] := by
  refine ⟨rfl, ?_, ?_⟩ <;> rfl

/-- C3: the claim says evaluating the derivative function never writes through
to the committed system.  The source executes `self.pos = current_pos` inside
`derivative`, so after a call on a trial state the committed position array
has been overwritten by the trial positions. -/
theorem C3_derivative_overwrites_committed_position :
    (derivative testSys1 [7, 8, 0, 0]).1.pos = [((7 : ℝ), (8 : ℝ))] ∧
    testSys1.pos = [((5 : ℝ), (5 : ℝ))] ∧
    (derivative testSys1 [7, 8, 0, 0]).1.pos ≠ testSys1.pos := by
  refine ⟨rfl, rfl, ?_⟩
  intro h
  rw [show (derivative testSys1 [7, 8, 0, 0]).1.pos = [((7 : ℝ), (8 : ℝ))] from rfl,
      show testSys1.pos = [((5 : ℝ), (5 : ℝ))] from rfl] at h
  simp only [List.cons.injEq, Prod.mk.injEq, and_true] at h
  norm_num at h

/-- C7: state packing round-trip.  `step_forward` builds the flat state as the
concatenation of the flattened positions and flattened velocities; slicing at
`num_pos_coords = 2 * N` and reshaping (as done in `derivative` and after
integration) recovers exactly the original arrays, in order. -/
theorem C7_state_packing_round_trip (n : ℕ) (pos vel : List (ℝ × ℝ))
    (hn : 1 ≤ n) (hp : pos.length = n) (hv : vel.length = n) :
    unflatten2 ((flatten2 pos ++ flatten2 vel).take (2 * n)) = pos ∧
    unflatten2 ((flatten2 pos ++ flatten2 vel).drop (2 * n)) = vel := by
  have hl : (flatten2 pos).length = 2 * n := by rw [flatten2_length, hp]
  constructor
  · rw [← hl, List.take_left, unflatten2_flatten2]
  · rw [← hl, List.drop_left, unflatten2_flatten2]

/-- Witness for C7 at a concrete two-particle state. -/
theorem C7_state_packing_round_trip_witness :
    (1 ≤ 2 ∧ ([((1 : ℝ), 2), (3, 4)] : List (ℝ × ℝ)).length = 2 ∧
      ([((5 : ℝ), 6), (7, 8)] : List (ℝ × ℝ)).length = 2) ∧
    (unflatten2 ((flatten2 [((1 : ℝ), 2), (3, 4)] ++
        flatten2 [((5 : ℝ), 6), (7, 8)]).take (2 * 2)) = [((1 : ℝ), 2), (3, 4)] ∧
     unflatten2 ((flatten2 [((1 : ℝ), 2), (3, 4)] ++
        flatten2 [((5 : ℝ), 6), (7, 8)]).drop (2 * 2)) = [((5 : ℝ), 6), (7, 8)]) :=
  ⟨⟨by norm_num, rfl, rfl⟩,
    C7_state_packing_round_trip 2 [((1 : ℝ), 2), (3, 4)] [((5 : ℝ), 6), (7, 8)]
      (by norm_num) rfl rfl⟩

/-- C8: after a step completes (`step_forward` then
`enforce_periodic_boundary_conditions`, as the main loop orders them), every
committed position lies in the half-open rectangle [0, W) x [0, H); and the
periodic wrap fixes any position already inside that rectangle. -/
theorem C8_periodic_wrap_range_and_idempotence (s : Particles)
    (sol : SolveIvpResult) (p q : ℝ × ℝ)
    (hp : p ∈ (enforce_periodic_boundary_conditions (step_forward s sol)).pos)
    (hq1 : 0 ≤ q.1) (hq2 : q.1 < SCREEN_WIDTH)
    (hq3 : 0 ≤ q.2) (hq4 : q.2 < SCREEN_HEIGHT) :
    (0 ≤ p.1 ∧ p.1 < SCREEN_WIDTH ∧ 0 ≤ p.2 ∧ p.2 < SCREEN_HEIGHT) ∧
    (npMod q.1 SCREEN_WIDTH, npMod q.2 SCREEN_HEIGHT) = q := by
  have hW : (0 : ℝ) < SCREEN_WIDTH := by norm_num [SCREEN_WIDTH]
  have hH : (0 : ℝ) < SCREEN_HEIGHT := by norm_num [SCREEN_HEIGHT]
  constructor
  · simp only [enforce_periodic_boundary_conditions, List.mem_map] at hp
    obtain ⟨r, hr, hrp⟩ := hp
    subst hrp
    obtain ⟨h1, h2⟩ := npMod_mem_Ico hW r.1
    obtain ⟨h3, h4⟩ := npMod_mem_Ico hH r.2
    exact ⟨h1, h2, h3, h4⟩
  · rw [npMod_eq_self hW hq1 hq2, npMod_eq_self hH hq3 hq4]

/-- Witness for C8: a concrete post-step state and a concrete in-range point. -/
theorem C8_periodic_wrap_range_and_idempotence_witness :
    (((0 : ℝ), (0 : ℝ)) ∈ (enforce_periodic_boundary_conditions
         (step_forward testSys1 (SolveIvpResult.mk [0, 0, 0, 0] true))).pos ∧
      (0 : ℝ) ≤ (((3 : ℝ), (4 : ℝ)) : ℝ × ℝ).1 ∧
      (((3 : ℝ), (4 : ℝ)) : ℝ × ℝ).1 < SCREEN_WIDTH ∧
      (0 : ℝ) ≤ (((3 : ℝ), (4 : ℝ)) : ℝ × ℝ).2 ∧
      (((3 : ℝ), (4 : ℝ)) : ℝ × ℝ).2 < SCREEN_HEIGHT) ∧
    ((0 ≤ (((0 : ℝ), (0 : ℝ)) : ℝ × ℝ).1 ∧
      (((0 : ℝ), (0 : ℝ)) : ℝ × ℝ).1 < SCREEN_WIDTH ∧
      0 ≤ (((0 : ℝ), (0 : ℝ)) : ℝ × ℝ).2 ∧
      (((0 : ℝ), (0 : ℝ)) : ℝ × ℝ).2 < SCREEN_HEIGHT) ∧
     (npMod (((3 : ℝ), (4 : ℝ)) : ℝ × ℝ).1 SCREEN_WIDTH,
       npMod (((3 : ℝ), (4 : ℝ)) : ℝ × ℝ).2 SCREEN_HEIGHT)
        = (((3 : ℝ), (4 : ℝ)) : ℝ × ℝ)) := by
  have hmem : ((0 : ℝ), (0 : ℝ)) ∈ (enforce_periodic_boundary_conditions
      (step_forward testSys1 (SolveIvpResult.mk [0, 0, 0, 0] true))).pos := by
    simp [enforce_periodic_boundary_conditions, step_forward, testSys1,
      num_pos_coords, unflatten2, npMod]
  have h1 : (0 : ℝ) ≤ (((3 : ℝ), (4 : ℝ)) : ℝ × ℝ).1 := by norm_num
  have h2 : (((3 : ℝ), (4 : ℝ)) : ℝ × ℝ).1 < SCREEN_WIDTH := by norm_num [SCREEN_WIDTH]
  have h3 : (0 : ℝ) ≤ (((3 : ℝ), (4 : ℝ)) : ℝ × ℝ).2 := by norm_num
  have h4 : (((3 : ℝ), (4 : ℝ)) : ℝ × ℝ).2 < SCREEN_HEIGHT := by norm_num [SCREEN_HEIGHT]
  exact ⟨⟨hmem, h1, h2, h3, h4⟩,
    C8_periodic_wrap_range_and_idempotence testSys1 (SolveIvpResult.mk [0, 0, 0, 0] true)
      ((0 : ℝ), (0 : ℝ)) ((3 : ℝ), (4 : ℝ)) hmem h1 h2 h3 h4⟩

/-- Concrete two-particle system straddling the x wrap boundary: x = 1 and
x = W - 1 = 1279 at the same y. -/
noncomputable def testSysC5 : Particles :=
  { num_particles := 2
    radius := 10
    masses := [4, 4]
    pos := [(1, 100), (1279, 100)]
    vel := [(0, 0), (0, 0)]
    forces := [(0, 0), (0, 0)]
    accelerations := [(0, 0), (0, 0)]
    kinetic_energy := 0
    potential_energy := 0
    total_energy := 0 }

/-- C5: minimum-image correctness.  For particles at x = 1 and x = W - 1 the
corrected pair displacement computed in `calculate_forces` is (-2, 0) — the
short wraparound path of length 2, not the long path of length W - 2. -/
theorem C5_minimum_image_short_path :
    pairDisp testSysC5 0 1 = ((-2 : ℝ), (0 : ℝ)) ∧
    Real.sqrt ((pairDisp testSysC5 0 1).1 ^ 2 + (pairDisp testSysC5 0 1).2 ^ 2)
      = 2 := by
  have hfl : ⌊(1278 : ℝ) / 1280⌋ = 0 := by
    rw [Int.floor_eq_iff]
    push_cast
    norm_num
  have hfr : Int.fract ((1278 : ℝ) / 1280) = 1278 / 1280 := by
    rw [Int.fract, hfl]
    norm_num
  have hx : npRound ((1278 : ℝ) / 1280) = 1 := by
    rw [npRound, hfr, hfl]
    norm_num
  have hd : pairDisp testSysC5 0 1 = ((-2 : ℝ), (0 : ℝ)) := by
    have hps : posAt testSysC5 0 = ((1 : ℝ), (100 : ℝ)) := rfl
    have hps2 : posAt testSysC5 1 = ((1279 : ℝ), (100 : ℝ)) := rfl
    rw [pairDisp, hps, hps2]
    have harg : (((1279 : ℝ), (100 : ℝ)).1 - ((1 : ℝ), (100 : ℝ)).1,
        ((1279 : ℝ), (100 : ℝ)).2 - ((1 : ℝ), (100 : ℝ)).2)
        = ((1278 : ℝ), (0 : ℝ)) := by norm_num
    rw [harg, minImage]
    have hw : (1278 : ℝ) / SCREEN_WIDTH = 1278 / 1280 := by norm_num [SCREEN_WIDTH]
    have hh : (0 : ℝ) / SCREEN_HEIGHT = 0 := by norm_num [SCREEN_HEIGHT]
    rw [Prod.mk.injEq]
    constructor
    · show (1278 : ℝ) - SCREEN_WIDTH * (npRound ((1278 : ℝ) / SCREEN_WIDTH) : ℝ) = -2
      rw [hw, hx]
      norm_num [SCREEN_WIDTH]
    · show (0 : ℝ) - SCREEN_HEIGHT * (npRound ((0 : ℝ) / SCREEN_HEIGHT) : ℝ) = 0
      rw [hh, npRound_zero]
      norm_num
  refine ⟨hd, ?_⟩
  rw [hd]
  have : (((-2 : ℝ), (0 : ℝ)).1 ^ 2 + ((-2 : ℝ), (0 : ℝ)).2 ^ 2) = (2 : ℝ) ^ 2 := by
    norm_num
  rw [this, Real.sqrt_sq]
  norm_num

/-- Concrete two-particle system with both particles at identical coordinates. -/
noncomputable def testSysC9 : Particles :=
  { num_particles := 2
    radius := 10
    masses := [2, 3]
    pos := [(5, 5), (5, 5)]
    vel := [(0, 0), (0, 0)]
    forces := [(0, 0), (0, 0)]
    accelerations := [(0, 0), (0, 0)]
    kinetic_energy := 0
    potential_energy := 0
    total_energy := 0 }

/-- C9: force regularity.  For a pair at identical coordinates the corrected
displacement is zero, the softened squared separation equals the softening
constant exactly, and the force magnitude computed by `calculate_forces`
equals (hence is bounded by) G * m_i * m_j / softening — a finite real. -/
theorem C9_force_magnitude_bounded_by_softening (s : Particles) (i j : ℕ)
    (hpos : posAt s i = posAt s j) :
    force_magnitude s i j = G_SCALED * massAt s i * massAt s j / EPS_SQUARED ∧
    force_magnitude s i j ≤ G_SCALED * massAt s i * massAt s j / EPS_SQUARED := by
  have hd : pairDisp s i j = ((0 : ℝ), (0 : ℝ)) := by
    rw [pairDisp, hpos]
    simp only [sub_self]
    exact minImage_zero
  have hr2 : pairR2 s i j = EPS_SQUARED := by
    rw [pairR2, hd]
    norm_num
  have he : force_magnitude s i j = G_SCALED * massAt s i * massAt s j / EPS_SQUARED := by
    rw [force_magnitude, hr2]
  exact ⟨he, le_of_eq he⟩

/-- Witness for C9 at the coincident-pair system. -/
theorem C9_force_magnitude_bounded_by_softening_witness :
    posAt testSysC9 0 = posAt testSysC9 1 ∧
    (force_magnitude testSysC9 0 1
        = G_SCALED * massAt testSysC9 0 * massAt testSysC9 1 / EPS_SQUARED ∧
     force_magnitude testSysC9 0 1
        ≤ G_SCALED * massAt testSysC9 0 * massAt testSysC9 1 / EPS_SQUARED) :=
  ⟨rfl, C9_force_magnitude_bounded_by_softening testSysC9 0 1 rfl⟩

theorem getD_ofFn {n : ℕ} (f : Fin n → ℝ × ℝ) (d : ℝ × ℝ) (k : ℕ) (hk : k < n) :
    (List.ofFn f).getD k d = f ⟨k, hk⟩ := by
  have hlen : k < (List.ofFn f).length := by
    rw [List.length_ofFn]
    exact hk
  rw [List.getD_eq_getElem _ _ hlen, List.getElem_ofFn]

theorem pairSum_two {α : Type} [AddCommMonoid α] (f : ℕ → ℕ → α) :
    pairSum 2 f = f 0 1 := by
  simp [pairSum, Finset.sum_range_succ, Finset.sum_range_zero]

/-- C4: Newton's third law in the scatter-add accumulation.  For every unique
pair (i, j) with i < j, the contribution added to slot i is exactly the pair
force and the contribution added to slot j its exact negation; in particular
for a two-particle system the accumulated net forces satisfy
forces[0] = -forces[1]. -/
theorem C4_newtons_third_law (s : Particles) (i j : ℕ) (hij : i < j) :
    pairContrib s i i j = pair_force s i j ∧
    pairContrib s j i j = -pair_force s i j ∧
    pairContrib s i i j = -pairContrib s j i j ∧
    (s.num_particles = 2 →
      (calculate_forces s).forces.getD 0 ((0 : ℝ), (0 : ℝ))
        = -(calculate_forces s).forces.getD 1 ((0 : ℝ), (0 : ℝ))) := by
  have hne : i ≠ j := Nat.ne_of_lt hij
  have h1 : pairContrib s i i j = pair_force s i j := by
    simp [pairContrib, hne]
  have h2 : pairContrib s j i j = -pair_force s i j := by
    simp [pairContrib, Ne.symm hne]
  refine ⟨h1, h2, by rw [h1, h2, neg_neg], ?_⟩
  intro h2p
  have hg0 : (calculate_forces s).forces.getD 0 ((0 : ℝ), (0 : ℝ))
      = pairSum s.num_particles (fun a b => pairContrib s 0 a b) := by
    simp only [calculate_forces]
    rw [getD_ofFn _ _ 0 (by omega)]
  have hg1 : (calculate_forces s).forces.getD 1 ((0 : ℝ), (0 : ℝ))
      = pairSum s.num_particles (fun a b => pairContrib s 1 a b) := by
    simp only [calculate_forces]
    rw [getD_ofFn _ _ 1 (by omega)]
  rw [hg0, hg1, h2p, pairSum_two, pairSum_two]
  have hc0 : pairContrib s 0 0 1 = pair_force s 0 1 := by
    simp [pairContrib]
  have hc1 : pairContrib s 1 0 1 = -pair_force s 0 1 := by
    simp [pairContrib]
  rw [hc0, hc1, neg_neg]

/-- Witness for C4 at the concrete two-particle system. -/
theorem C4_newtons_third_law_witness :
    ((0 : ℕ) < 1 ∧ testSysC9.num_particles = 2) ∧
    (pairContrib testSysC9 0 0 1 = pair_force testSysC9 0 1 ∧
     pairContrib testSysC9 1 0 1 = -pair_force testSysC9 0 1 ∧
     pairContrib testSysC9 0 0 1 = -pairContrib testSysC9 1 0 1 ∧
     (calculate_forces testSysC9).forces.getD 0 ((0 : ℝ), (0 : ℝ))
       = -(calculate_forces testSysC9).forces.getD 1 ((0 : ℝ), (0 : ℝ))) := by
  have h := C4_newtons_third_law testSysC9 0 1 (by norm_num)
  exact ⟨⟨by norm_num, rfl⟩, h.1, h.2.1, h.2.2.1, h.2.2.2 rfl⟩

/-- C10: in exact arithmetic the accumulated forces of `calculate_forces` sum
to the zero vector over all particles (each unique pair contributes a vector
and its exact negation), and — the forces buffer being reset to zeros at the
start of the call — the output is independent of whatever forces were stored
before the call. -/
theorem C10_net_force_zero_and_history_free (s : Particles) (g : List (ℝ × ℝ))
    (hn : 1 ≤ s.num_particles)
    (hm : ∀ i, i < s.num_particles → 0 < massAt s i) :
    (∑ k ∈ Finset.range s.num_particles,
        (calculate_forces s).forces.getD k ((0 : ℝ), (0 : ℝ))) = ((0 : ℝ), (0 : ℝ)) ∧
    (calculate_forces { s with forces := g }).forces = (calculate_forces s).forces := by
  constructor
  · have hterm : ∀ k ∈ Finset.range s.num_particles,
        (calculate_forces s).forces.getD k ((0 : ℝ), (0 : ℝ))
          = pairSum s.num_particles (fun a b => pairContrib s k a b) := by
      intro k hk
      rw [Finset.mem_range] at hk
      simp only [calculate_forces]
      rw [getD_ofFn _ _ k hk]
    rw [Finset.sum_congr rfl hterm]
    unfold pairSum
    rw [Finset.sum_comm]
    refine Finset.sum_eq_zero ?_
    intro i hi
    rw [Finset.sum_comm]
    refine Finset.sum_eq_zero ?_
    intro j hj
    by_cases hij : i < j
    · simp only [if_pos hij, pairContrib]
      rw [Finset.sum_add_distrib, Finset.sum_ite_eq', Finset.sum_ite_eq',
        if_pos hi, if_pos hj]
      exact add_neg_cancel _
    · simp [hij]
  · rfl

/-- Witness for C10 at the concrete one-particle system. -/
theorem C10_net_force_zero_and_history_free_witness :
    (1 ≤ testSys1.num_particles ∧
      ∀ i, i < testSys1.num_particles → 0 < massAt testSys1 i) ∧
    ((∑ k ∈ Finset.range testSys1.num_particles,
        (calculate_forces testSys1).forces.getD k ((0 : ℝ), (0 : ℝ)))
        = ((0 : ℝ), (0 : ℝ)) ∧
     (calculate_forces { testSys1 with forces := [((9 : ℝ), 9)] }).forces
        = (calculate_forces testSys1).forces) := by
  have hn : 1 ≤ testSys1.num_particles := by norm_num [testSys1]
  have hm : ∀ i, i < testSys1.num_particles → 0 < massAt testSys1 i := by
    intro i hi
    have h1 : testSys1.num_particles = 1 := rfl
    rw [h1] at hi
    interval_cases i
    norm_num [massAt, testSys1]
  exact ⟨⟨hn, hm⟩, C10_net_force_zero_and_history_free testSys1 [((9 : ℝ), 9)] hn hm⟩

theorem sum_zipWith_eq (g : ℝ → ℝ × ℝ → ℝ) (a : List ℝ) (b : List (ℝ × ℝ))
    (h : a.length = b.length) :
    (List.zipWith g a b).sum
      = ∑ i ∈ Finset.range a.length, g (a.getD i 0) (b.getD i (0, 0)) := by
  induction a generalizing b with
  | nil => simp
  | cons x xs ih =>
    cases b with
    | nil => simp at h
    | cons y ys =>
      simp only [List.zipWith_cons_cons, List.sum_cons, List.length_cons]
      rw [Finset.sum_range_succ']
      simp only [List.getD_cons_succ, List.getD_cons_zero]
      rw [ih ys (by simpa using h)]
      ring

/-- Potential-energy pair distance agrees with the force-side softened
separation: the two displacement computations have opposite orientation, and
round-half-to-even is odd, so the minimum-image corrected vectors are exact
negations and their squared lengths coincide. -/
theorem peDist_eq_sqrt_pairR2 (s : Particles) (i j : ℕ) :
    peDist s i j = Real.sqrt (pairR2 s i j) := by
  have h2 : ((posAt s i).1 - (posAt s j).1, (posAt s i).2 - (posAt s j).2)
      = (-(((posAt s j).1 - (posAt s i).1, (posAt s j).2 - (posAt s i).2) : ℝ × ℝ).1,
         -(((posAt s j).1 - (posAt s i).1, (posAt s j).2 - (posAt s i).2) : ℝ × ℝ).2) := by
    rw [Prod.mk.injEq]
    constructor <;> ring
  rw [peDist, h2, minImage_neg]
  unfold pairR2 pairDisp
  rw [Prod.fst_neg, Prod.snd_neg]
  ring_nf

/-- C6: energy accounting.  Kinetic energy is 0.5 times the mass-weighted sum
of squared speeds; potential energy sums, over unique pairs,
-G * m_i * m_j / r with r the square root of the same minimum-image-corrected,
softened squared separation that `calculate_forces` uses for that pair; and
total energy is their sum. -/
theorem C6_energy_accounting (s : Particles)
    (hm : s.masses.length = s.num_particles)
    (hv : s.vel.length = s.num_particles) :
    (calculate_kinetic_energy s).kinetic_energy
      = 0.5 * ∑ i ∈ Finset.range s.num_particles,
          massAt s i * ((velAt s i).1 ^ 2 + (velAt s i).2 ^ 2) ∧
    (calculate_potential_energy s).potential_energy
      = pairSum s.num_particles
          (fun i j => -(G_SCALED * massAt s i * massAt s j)
            / Real.sqrt (pairR2 s i j)) ∧
    (calculate_total_energy s).total_energy
      = (calculate_kinetic_energy s).kinetic_energy
        + (calculate_potential_energy s).potential_energy := by
  refine ⟨?_, ?_, ?_⟩
  · show 0.5 * (List.zipWith _ s.masses s.vel).sum = _
    rw [sum_zipWith_eq _ _ _ (by rw [hm, hv]), hm]
    rfl
  · show pairSum _ _ = _
    unfold pairSum
    refine Finset.sum_congr rfl ?_
    intro i _
    refine Finset.sum_congr rfl ?_
    intro j _
    show (if i < j then -G_SCALED * (massAt s i * massAt s j) / peDist s i j else 0)
        = (if i < j then -(G_SCALED * massAt s i * massAt s j)
            / Real.sqrt (pairR2 s i j) else 0)
    by_cases hij : i < j
    · rw [if_pos hij, if_pos hij, peDist_eq_sqrt_pairR2]
      ring
    · rw [if_neg hij, if_neg hij]
  · exact add_comm ((calculate_potential_energy s).potential_energy)
      ((calculate_kinetic_energy s).kinetic_energy)

/-- Witness for C6 at the concrete boundary-straddling system. -/
theorem C6_energy_accounting_witness :
    (testSysC5.masses.length = testSysC5.num_particles ∧
      testSysC5.vel.length = testSysC5.num_particles) ∧
    ((calculate_kinetic_energy testSysC5).kinetic_energy
        = 0.5 * ∑ i ∈ Finset.range testSysC5.num_particles,
            massAt testSysC5 i *
              ((velAt testSysC5 i).1 ^ 2 + (velAt testSysC5 i).2 ^ 2) ∧
     (calculate_potential_energy testSysC5).potential_energy
        = pairSum testSysC5.num_particles
            (fun i j => -(G_SCALED * massAt testSysC5 i * massAt testSysC5 j)
              / Real.sqrt (pairR2 testSysC5 i j)) ∧
     (calculate_total_energy testSysC5).total_energy
        = (calculate_kinetic_energy testSysC5).kinetic_energy
          + (calculate_potential_energy testSysC5).potential_energy) :=
  ⟨⟨rfl, rfl⟩, C6_energy_accounting testSysC5 rfl rfl⟩

end PyGravitas
